import Mathlib

/-!
Verification of the gowitness `generate` report pipeline
(`src/cmd/generate.go`) against its natural-language specification.

The Go source is shallowly embedded below.  Pure loops become structural
or well-founded recursions; the external library call `sort.Slice`
(Go standard library, not part of this repository) is modelled by its
documented contract: it produces a permutation of its input that is
sorted with respect to the supplied `less` function, and it is *not*
guaranteed to be stable ("equal elements may be reversed from their
original order", Go `sort` package documentation).  We therefore model
each `sort.Slice` call as the *set* of outcomes permitted by that
contract: a relation between input and output lists.  Machine `int`
values (`ResponseCode`) are modelled as `Int`; the values arising here
are tiny, so overflow does not come into play.
-/

/-- One HTTP header pair, as stored with each record
(`storage.HTTPHeader`; the `storage` package is not under `src/`).
Modelled from the spec: "`Headers`: ordered sequence of (key, value)
string pairs, duplicates permitted, insertion order preserved". -/
structure HTTPHeader where
  Key : String
  Value : String
deriving DecidableEq

/-- One probe record (`storage.HTTResponse`; the `storage` package is not
under `src/`).  Modelled from the spec: the fields consumed by the
pipeline, §3 and §6 of the spec. -/
structure HTTResponse where
  URL : String
  FinalURL : String
  ResponseCode : Int
  PageTitle : String
  ScreenshotFile : String
  Headers : List HTTPHeader
deriving DecidableEq

/-- Modelled from the spec: the fixed placeholder screenshot reference
(`gwtmpl.PlaceHolderImage`; the `template` package is not under `src/`).
Only its identity matters to the pipeline, never its contents. -/
def placeHolderImage : String := "placeholder-image"

/-- Go `strings.ToLower` (standard library).  Lean's own `String.toLower`
is definitionally opaque to the kernel, so the same character map is
spelled out over the underlying character list; the data in this
repository's claims is ASCII, where `Char.toLower` agrees with Go. -/
def goToLower (s : String) : String := String.mk (s.data.map Char.toLower)

/-- Go `<` on strings compares UTF-8 bytes lexicographically, which for
valid encodings coincides with lexicographic order on the decoded
character sequences. -/
def goStrLt (a b : String) : Bool := decide (a.data < b.data)

/-- Go `path/filepath.Base` (standard library): the last element of the
path after trailing slashes are removed; "." for the empty path, "/" if
the path is entirely slashes. -/
def filepathBase (path : String) : String :=
  if path = "" then "."
  else
    let trimmed := (path.toList.reverse.dropWhile (fun c => c = '/')).reverse
    if trimmed = [] then "/"
    else String.mk (trimmed.reverse.takeWhile (fun c => c ≠ '/')).reverse

/-- The outcome classes of `os.Stat` on a screenshot path, as the code at
line 50 distinguishes them: success, an error satisfying
`os.IsNotExist`, or any other error. -/
inductive StatResult where
  | found
  | notExist
  | statFailed
deriving DecidableEq

/-- Lines 50–55: the loader replaces `ScreenshotFile` with the
placeholder exactly when `os.Stat` returns an `IsNotExist` error; a
successful stat *and any other stat error* both fall through with the
record unchanged (the error value is dropped on the floor). -/
def loadEntry (stat : String → StatResult) (r : HTTResponse) : HTTResponse :=
  match stat r.ScreenshotFile with
  | .notExist => { r with ScreenshotFile := placeHolderImage }
  | _ => r

/-- Lines 58–64: the record filter.  `includeErrors` keeps everything;
otherwise a record is kept when `200 <= ResponseCode < 300`, and the
`errorsIgnored` counter is incremented for each record that is dropped.
The Go loop appends kept records to a slice in scan order; the
structural recursion below conses the head onto the filtered tail,
producing the same list in the same order. -/
def filterRecords (includeErrors : Bool) : List HTTResponse → List HTTResponse × Nat
  | [] => ([], 0)
  | r :: rs =>
    let rest := filterRecords includeErrors rs
    if includeErrors then (r :: rest.1, rest.2)
    else if 200 ≤ r.ResponseCode ∧ r.ResponseCode < 300 then (r :: rest.1, rest.2)
    else (rest.1, rest.2 + 1)

/-- The success-range test used by the filter (line 60). -/
def inSuccessRange (r : HTTResponse) : Bool :=
  decide (200 ≤ r.ResponseCode ∧ r.ResponseCode < 300)

/-- Line 72–74: the primary comparison passed to `sort.Slice`:
`strings.ToLower(titleᵢ) < strings.ToLower(titleⱼ)` (byte-wise string
comparison; for the ASCII data involved `String.toLower` and `<` on
Lean strings coincide with the Go operations). -/
def titleLess (a b : HTTResponse) : Bool :=
  goStrLt (goToLower a.PageTitle) (goToLower b.PageTitle)

/-- Lines 86–93: the secondary key of a record.  The Go loop walks *all*
headers and overwrites the accumulator at every case-insensitive
"server" key match, so the key is the lowercased value of the *last*
matching header (empty when none matches). -/
def serverValue (r : HTTResponse) : String :=
  r.Headers.foldl (fun acc h => if goToLower h.Key = "server" then goToLower h.Value else acc) ""

/-- Modelled from the spec: "the value of the first header whose key
case-insensitively equals \"server\" (the empty string if no such
header is present)" — the spec's wording of the secondary key, kept
separate so it can be compared with `serverValue`, the key the code
computes. -/
def serverValueFirstSpec (r : HTTResponse) : String :=
  match r.Headers.find? (fun h => goToLower h.Key = "server") with
  | some h => goToLower h.Value
  | none => ""

/-- Line 94: the secondary comparison passed to `sort.Slice`. -/
def serverLess (a b : HTTResponse) : Bool :=
  goStrLt (serverValue a) (serverValue b)

/-- The documented contract of Go's `sort.Slice xs less` (standard
library, external to this repository): the slice afterwards is a
permutation of the slice before, arranged so that no later element is
`less` than an earlier one.  Stability is explicitly *not* promised, so
every permutation satisfying the ordering condition is a permitted
outcome. -/
def sortSliceSpec (less : HTTResponse → HTTResponse → Bool) (input output : List HTTResponse) : Prop :=
  output.Perm input ∧ output.Pairwise (fun a b => less b a = false)

instance (less : HTTResponse → HTTResponse → Bool) (input output : List HTTResponse) :
    Decidable (sortSliceSpec less input output) := by
  unfold sortSliceSpec
  infer_instance

/-- Lines 78–84: the boundary scan.  `lastSortIndex` starts at 0; the
loop assigns the index of the first record with a non-empty title and
breaks; if no record has a title the variable is never assigned and
stays 0. -/
def boundaryScan : Nat → List HTTResponse → Nat
  | _, [] => 0
  | i, r :: rs => if r.PageTitle ≠ "" then i else boundaryScan (i + 1) rs

/-- The value of `lastSortIndex` after the scan over a list. -/
def boundaryIndex (l : List HTTResponse) : Nat := boundaryScan 0 l

/-- Lines 72–95: the complete two-level sort.  First `sort.Slice` by
`titleLess` over the whole list, then the boundary scan, then
`sort.Slice` by `serverLess` over the sub-slice `[0, lastSortIndex)`;
the suffix from `lastSortIndex` on is untouched.  Because each
`sort.Slice` is modelled by its contract, the whole phase is a relation
between the filtered input and the sorted output. -/
def twoLevelSort (input output : List HTTResponse) : Prop :=
  ∃ mid pre, sortSliceSpec titleLess input mid ∧
    sortSliceSpec serverLess (mid.take (boundaryIndex mid)) pre ∧
    output = pre ++ mid.drop (boundaryIndex mid)

/-- Lines 147–166 (and identically 125–129): the page loop visits
`i = 0, P, 2P, ...` while `i < len(entries)` and slices
`entries[i : i+end]` with `end = min(pageSize, len(entries)-i)`;
`xs.take P` is exactly that slice at each step.  For `pageSize <= 0`
the Go loop never terminates; the model is only meaningful for `P > 0`
(every claim assumes a positive page size) and returns `[]` otherwise. -/
def pageSlices (P : Nat) (xs : List HTTResponse) : List (List HTTResponse) :=
  if _hP : P = 0 then []
  else if _hxs : xs = [] then []
  else xs.take P :: pageSlices P (xs.drop P)
termination_by xs.length
decreasing_by
  simp only [List.length_drop]
  cases xs with
  | nil => exact absurd rfl _hxs
  | cons a as => simp; omega

/-- Lines 123–129: the page-counting loop, phrased over the number of
records not yet visited (`n = len(entries) - i`); each iteration
increments `pageno` and advances by `pageSize`. -/
def pageCountLoop (P : Nat) (n : Nat) : Nat :=
  if _hP : P = 0 then 0
  else if _hn : n = 0 then 0
  else pageCountLoop P (n - P) + 1
termination_by n
decreasing_by omega

/-- Line 126/163: the output file name of page `p`. -/
def pageFileName (p : Nat) : String := "page-" ++ Nat.repr p ++ ".html"

/-- Line 151: the page number targeted by page `p`'s "Prev" link. -/
def prevPage (p pageCount : Nat) : Nat := (p + pageCount - 1) % pageCount

/-- Line 152: the page number targeted by page `p`'s "Next" link. -/
def nextPage (p pageCount : Nat) : Nat := (p + 1) % pageCount

/-- Lines 133–144: the display projection applied to every sorted entry
before rendering: the screenshot path is replaced by its base name
unless it is the placeholder, and the header list is narrowed to the
entries whose key case-insensitively equals "server", in order. -/
def displayProject (r : HTTResponse) : HTTResponse :=
  { r with
    ScreenshotFile :=
      if r.ScreenshotFile ≠ placeHolderImage then filepathBase r.ScreenshotFile
      else r.ScreenshotFile,
    Headers := r.Headers.filter (fun h => goToLower h.Key = "server") }

/-- The observable outcome of one `generate` run: the page files it
writes and, when the kept set is empty, the value of the `count` field
carried by the error-level log at line 102 (the code logs
`len(screenshotEntries)` there). -/
structure RunOutcome where
  files : List String
  errorLogCount : Option Nat
deriving DecidableEq

/-- Lines 101–166 as a function of the sorted kept list: an empty list
short-circuits at lines 101–104 with an error-level log whose `count`
field is the (zero) length of the kept list and no files; otherwise the
entries are projected in place (lines 133–144, i.e. before the render
loop slices them) and one file per page is written, named after its
page number. -/
def generateOutcome (P : Nat) (sorted : List HTTResponse) : RunOutcome :=
  if sorted.length ≤ 0 then
    { files := [], errorLogCount := some sorted.length }
  else
    { files := (List.range (pageSlices P (sorted.map displayProject)).length).map pageFileName,
      errorLogCount := none }

/-- The whole pipeline for one run: filter (lines 58–64), the two-level
sort (lines 72–95, relational because `sort.Slice` is), then the
outcome.  Note that the error log of the empty branch never consults
the `errorsIgnored` counter. -/
def generateRun (includeErrors : Bool) (P : Nat) (records : List HTTResponse) (out : RunOutcome) : Prop :=
  ∃ sorted, twoLevelSort (filterRecords includeErrors records).1 sorted ∧
    out = generateOutcome P sorted

/-- The environment of the render loop: whether `tmplPage.Execute`
(line 162) and `ioutil.WriteFile` (line 164) succeed for each page. -/
structure RenderEnv where
  execOk : Nat → Bool
  writeOk : Nat → Bool

/-- What the render loop leaves behind for one page: the file name it
used and the success of the two calls whose return values the code
discards. -/
structure PageOutcome where
  file : String
  execOk : Bool
  writeOk : Bool
deriving DecidableEq

/-- Lines 147–166: the render loop.  For each page it formats the file
name from `pageno`, calls `Execute` and `WriteFile`, and increments
`pageno` — the return values of both calls are bound to nothing and the
body contains no logging or error propagation, so the second component
(the error reports the loop emits) never has anything appended to
it. -/
def renderLoop (env : RenderEnv) : Nat → List (List HTTResponse) → List PageOutcome × List String
  | _, [] => ([], [])
  | p, _ :: rest =>
    let execRes := env.execOk p
    let writeRes := env.writeOk p
    let r := renderLoop env (p + 1) rest
    ({ file := pageFileName p, execOk := execRes, writeOk := writeRes } :: r.1, r.2)

/-- Builds a concrete record for witnesses and counterexamples. -/
def mkRec (url title shot : String) (code : Int) (hs : List (String × String)) : HTTResponse :=
  { URL := url, FinalURL := url, ResponseCode := code, PageTitle := title,
    ScreenshotFile := shot, Headers := hs.map (fun q => { Key := q.1, Value := q.2 }) }

/-- Untitled record whose single server header is "nginx". -/
def rNginx : HTTResponse := mkRec ("http://n") ("") ("n.png") 200 [(("Server"), ("nginx"))]

/-- Untitled record whose single server header is "apache". -/
def rApache : HTTResponse := mkRec ("http://a") ("") ("a.png") 200 [(("Server"), ("apache"))]

/-- Untitled record with two server headers, first "bbb" then "aaa". -/
def rDup : HTTResponse := mkRec ("http://d") ("") ("d.png") 200 [(("Server"), ("bbb")), (("Server"), ("aaa"))]

/-- A titled record. -/
def rTitled : HTTResponse := mkRec ("http://t") ("t-page") ("t.png") 200 []

/-- Records for the stability counterexample: titles z, x, m, m, m, m, x. -/
def rZ : HTTResponse := mkRec ("http://z") ("z") ("z.png") 200 []

def rXa : HTTResponse := mkRec ("http://x-first") ("x") ("xa.png") 200 []

def rXb : HTTResponse := mkRec ("http://x-second") ("x") ("xb.png") 200 []

def rM1 : HTTResponse := mkRec ("http://m1") ("m") ("m1.png") 200 []

def rM2 : HTTResponse := mkRec ("http://m2") ("m") ("m2.png") 200 []

def rM3 : HTTResponse := mkRec ("http://m3") ("m") ("m3.png") 200 []

def rM4 : HTTResponse := mkRec ("http://m4") ("m") ("m4.png") 200 []

/-- The input of the stability counterexample, in stored order. -/
def c4Input : List HTTResponse := [rZ, rXa, rM1, rM2, rM3, rM4, rXb]

/-- The outcome Go's `sort.Slice` actually produces on `c4Input` for the
title comparison (shell pass with gap 6 swaps indices 0 and 6, moving
the second "x" record in front of the first; the insertion sort that
follows keeps that inversion), followed by the untouched empty
secondary sort.  It is also a permitted outcome of the contract
model. -/
def c4Output : List HTTResponse := [rM1, rM2, rM3, rM4, rXb, rXa, rZ]

/-- A record whose screenshot path is a nested file path. -/
def rShot : HTTResponse := mkRec ("http://s") ("s") ("shots/host.png") 200 []

/-- Three records that all carry response code 404. -/
def r404a : HTTResponse := mkRec ("http://e1") ("") ("e1.png") 404 []

def r404b : HTTResponse := mkRec ("http://e2") ("") ("e2.png") 404 []

def r404c : HTTResponse := mkRec ("http://e3") ("") ("e3.png") 404 []

/-- The all-404 input of the empty-result scenario. -/
def c7Input : List HTTResponse := [r404a, r404b, r404c]

/-! ### Shared lemmas about the embedded operations -/

/-- Nothing is byte-wise below the empty string. -/
theorem goStrLt_empty (s : String) : goStrLt s ("") = false := by
  unfold goStrLt
  rw [decide_eq_false_iff_not]
  intro hlt
  have h2 : s.data < [] := hlt
  generalize s.data = l at h2
  cases h2

/-- Lowercasing the empty string yields the empty string. -/
theorem goToLower_empty : goToLower ("") = ("") := rfl

/-- The primary comparison never puts anything below an untitled record. -/
theorem untitled_titleLess_false (b a : HTTResponse) (ha : a.PageTitle = "") :
    titleLess b a = false := by
  unfold titleLess
  rw [ha, goToLower_empty]
  exact goStrLt_empty _

/-- A list of untitled records is vacuously ordered for the primary
comparison. -/
theorem pairwise_titleLess_of_untitled (l : List HTTResponse)
    (h : ∀ x ∈ l, x.PageTitle = "") :
    l.Pairwise (fun a b => titleLess b a = false) := by
  induction l with
  | nil => exact List.Pairwise.nil
  | cons a l ih =>
    refine List.Pairwise.cons (fun b _ => ?_) (ih fun x hx => h x (List.mem_cons_of_mem _ hx))
    exact untitled_titleLess_false b a (h a (List.mem_cons_self _ _))

/-- The boundary scan returns 0 on a list with no titled record,
whatever the running index is: the loop variable is never assigned. -/
theorem boundaryScan_all_untitled (l : List HTTResponse)
    (h : ∀ r ∈ l, r.PageTitle = "") : ∀ i, boundaryScan i l = 0 := by
  induction l with
  | nil => intro i; rfl
  | cons r rs ih =>
    intro i
    have hr : r.PageTitle = "" := h r (List.mem_cons_self _ _)
    simp only [boundaryScan, hr, ne_eq, not_true_eq_false, if_false]
    exact ih (fun x hx => h x (List.mem_cons_of_mem _ hx)) (i + 1)

/-- On a list containing a titled record, the boundary scan returns the
index (relative to the running index `i`) of the first titled record:
everything before it is untitled and the record at it is titled. -/
theorem boundaryScan_titled (l : List HTTResponse) :
    ∀ i, (∃ r ∈ l, r.PageTitle ≠ "") →
      ∃ k t rest, boundaryScan i l = i + k ∧
        (∀ x ∈ l.take k, x.PageTitle = "") ∧
        l.drop k = t :: rest ∧ t.PageTitle ≠ "" := by
  induction l with
  | nil => intro i h; simp at h
  | cons r rs ih =>
    intro i h
    by_cases hr : r.PageTitle = ""
    · have hrs : ∃ x ∈ rs, x.PageTitle ≠ "" := by
        obtain ⟨x, hx, hxt⟩ := h
        rcases List.mem_cons.mp hx with rfl | hx2
        · exact absurd hr hxt
        · exact ⟨x, hx2, hxt⟩
      obtain ⟨k, t, rest, hscan, htake, hdrop, ht⟩ := ih (i + 1) hrs
      refine ⟨k + 1, t, rest, ?_, ?_, ?_, ht⟩
      · simp only [boundaryScan, hr, ne_eq, not_true_eq_false, if_false]
        rw [hscan]; omega
      · intro x hx
        rw [List.take_succ_cons] at hx
        rcases List.mem_cons.mp hx with rfl | hx2
        · exact hr
        · exact htake x hx2
      · simpa [List.drop_succ_cons] using hdrop
    · refine ⟨0, r, rs, ?_, by simp, rfl, hr⟩
      simp [boundaryScan, hr]

/-- Every record the primary boundary cut keeps in the secondary-sort
range is untitled. -/
theorem take_boundary_untitled (l : List HTTResponse) (x : HTTResponse)
    (hx : x ∈ l.take (boundaryIndex l)) : x.PageTitle = "" := by
  by_cases h : ∃ r ∈ l, r.PageTitle ≠ ""
  · obtain ⟨k, t, rest, hscan, htake, _, _⟩ := boundaryScan_titled l 0 h
    have hb : boundaryIndex l = k := by simpa [boundaryIndex] using hscan
    exact htake x (hb ▸ hx)
  · push_neg at h
    exact h x (List.take_subset _ _ hx)

/-- The boundary of a fully untitled list is 0. -/
theorem boundaryIndex_all_untitled (l : List HTTResponse)
    (h : ∀ r ∈ l, r.PageTitle = "") : boundaryIndex l = 0 :=
  boundaryScan_all_untitled l h 0

/-- `takeWhile` stops exactly at the first element failing the
predicate when a block satisfying it is followed by one that does
not. -/
theorem takeWhile_append_block (p : HTTResponse → Bool) :
    ∀ (pre : List HTTResponse) (t : HTTResponse) (rest : List HTTResponse),
      (∀ x ∈ pre, p x = true) → p t = false →
      (pre ++ t :: rest).takeWhile p = pre := by
  intro pre
  induction pre with
  | nil =>
    intro t rest _ ht
    simp [List.takeWhile_cons, ht]
  | cons a pre ih =>
    intro t rest hall ht
    have ha : p a = true := hall a (List.mem_cons_self _ _)
    simp only [List.cons_append, List.takeWhile_cons, ha, if_true]
    rw [ih t rest (fun x hx => hall x (List.mem_cons_of_mem _ hx)) ht]

/-- Sorting the empty kept list can only produce the empty list. -/
theorem twoLevelSort_nil (out : List HTTResponse) (h : twoLevelSort [] out) : out = [] := by
  obtain ⟨mid, pre, ⟨hpm, _⟩, ⟨hqm, _⟩, hout⟩ := h
  have hmid : mid = [] := hpm.eq_nil
  subst hmid
  have hpre : pre = [] := by simpa using hqm.eq_nil
  simp [hout, hpre]

/-! ### Claim theorems -/

/-- Claim C2: with `includeErrors = false` the kept list is exactly the
records whose `ResponseCode` lies in [200, 300), in order, and
`errorsIgnored` counts exactly the records excluded by this rule; with
`includeErrors = true` every record is kept and nothing is counted as
ignored. -/
theorem c2_filter (rs : List HTTResponse) :
    (filterRecords false rs).1 = rs.filter inSuccessRange ∧
    (filterRecords false rs).2 = (rs.filter (fun r => !(inSuccessRange r))).length ∧
    (filterRecords true rs).1 = rs ∧
    (filterRecords true rs).2 = 0 := by
  induction rs with
  | nil => exact ⟨rfl, rfl, rfl, rfl⟩
  | cons r rs ih =>
    obtain ⟨ih1, ih2, ih3, ih4⟩ := ih
    by_cases h : 200 ≤ r.ResponseCode ∧ r.ResponseCode < 300
    · have hb : inSuccessRange r = true := by simp [inSuccessRange, h.1, h.2]
      refine ⟨?_, ?_, ?_, ?_⟩ <;>
        simp [filterRecords, h, hb, List.filter_cons, ih1, ih2, ih3, ih4]
    · have hb : inSuccessRange r = false := by
        simp only [inSuccessRange, decide_eq_false_iff_not]; exact h
      refine ⟨?_, ?_, ?_, ?_⟩ <;>
        simp [filterRecords, h, hb, List.filter_cons, ih1, ih2, ih3, ih4]

/-- Claim C5: the navigation links of page `p` when there are
`pc >= 1` pages: prev targets `(p + pc - 1) mod pc`, next targets
`(p + 1) mod pc`, page 0's prev wraps to the last page and the last
page's next wraps to page 0. -/
theorem c5_navigation (pc p : Nat) (hpc : 0 < pc) (_hp : p < pc) :
    prevPage p pc = (p + pc - 1) % pc ∧
    nextPage p pc = (p + 1) % pc ∧
    prevPage 0 pc = pc - 1 ∧
    nextPage (pc - 1) pc = 0 := by
  refine ⟨rfl, rfl, ?_, ?_⟩
  · unfold prevPage
    have h1 : 0 + pc - 1 = pc - 1 := by omega
    rw [h1]
    exact Nat.mod_eq_of_lt (by omega)
  · unfold nextPage
    have h1 : pc - 1 + 1 = pc := by omega
    rw [h1]
    exact Nat.mod_self pc

/-- Claim C5 witness: with five pages, page 0's prev resolves to page 4
and page 4's next resolves to page 0. -/
theorem c5_navigation_witness :
    ((0 : Nat) < 5 ∧ (0 : Nat) < 5) ∧
    (prevPage 0 5 = (0 + 5 - 1) % 5 ∧ nextPage 0 5 = (0 + 1) % 5 ∧
     prevPage 0 5 = 5 - 1 ∧ nextPage (5 - 1) 5 = 0) :=
  ⟨⟨by decide, by decide⟩, c5_navigation 5 0 (by decide) (by decide)⟩

/-- Claim C6 (code bug): the loader substitutes the placeholder exactly
on an `IsNotExist` stat outcome, but a stat *failure* of any other kind
is silently swallowed: the record keeps its original path (it is
treated as if the file existed) and no processing failure is raised —
the code path is total, there is no error channel at lines 50–55. -/
theorem c6_stat_error_swallowed :
    loadEntry (fun _ => StatResult.notExist) rShot
      = { rShot with ScreenshotFile := placeHolderImage } ∧
    loadEntry (fun _ => StatResult.found) rShot = rShot ∧
    loadEntry (fun _ => StatResult.statFailed) rShot = rShot :=
  ⟨rfl, rfl, rfl⟩

/-- Claim C3 counterexample: (a) with the two untitled nginx/apache
records as the whole kept set, the output leaving them in stored order
is a permitted outcome of the sort phase (and the one Go's stable
2-element insertion sort actually produces): the boundary scan finds no
titled record, stays 0, and no secondary reordering happens, so the
apache record does *not* precede the nginx record; (b) on a record with
two "server" headers the code's key is the *last* matching value, not
the first one named by the claim. -/
theorem c3_counterexample :
    twoLevelSort [rNginx, rApache] [rNginx, rApache] ∧
    [rNginx, rApache].indexOf rNginx = 0 ∧
    [rNginx, rApache].indexOf rApache = 1 ∧
    serverValue rDup = ("aaa") ∧
    serverValueFirstSpec rDup = ("bbb") := by
  refine ⟨⟨[rNginx, rApache], [], ?_, ?_, ?_⟩, ?_, ?_, ?_, ?_⟩ <;> decide

/-- Claim C3 as amended: the secondary key of a record is the
lowercased value of the *last* header whose key case-insensitively
equals "server" (`serverValue`; empty when none matches), and whenever
at least one kept record has a non-empty title, every permitted
outcome of the sort phase has its untitled block (the maximal untitled
front segment) ordered nondecreasing by that key. -/
theorem c3_secondary_sort (input output : List HTTResponse)
    (hsort : twoLevelSort input output)
    (htitled : ∃ r ∈ input, r.PageTitle ≠ "") :
    (output.takeWhile (fun r => decide (r.PageTitle = ""))).Pairwise
      (fun a b => serverLess b a = false) := by
  obtain ⟨mid, pre, ⟨hpm, hps⟩, ⟨hqm, hqs⟩, hout⟩ := hsort
  have htm : ∃ r ∈ mid, r.PageTitle ≠ "" := by
    obtain ⟨r, hr, ht⟩ := htitled
    exact ⟨r, hpm.mem_iff.mpr hr, ht⟩
  obtain ⟨k, t, rest, hscan, htake, hdrop, htt⟩ := boundaryScan_titled mid 0 htm
  have hbi : boundaryIndex mid = k := by simpa [boundaryIndex] using hscan
  rw [hbi] at hqm hout
  have hout2 : output = pre ++ t :: rest := by rw [hout, hdrop]
  have hpre : ∀ x ∈ pre, (fun r => decide (r.PageTitle = "")) x = true := by
    intro x hx
    simpa using htake x (hqm.subset hx)
  have htf : (fun r => decide (r.PageTitle = "")) t = false := by simpa using htt
  rw [hout2, takeWhile_append_block _ pre t rest hpre htf]
  exact hqs

/-- Claim C3 witness: nginx/apache records followed by a titled one;
the only permitted secondary order puts apache first, and the untitled
block of the exhibited outcome is nondecreasing by server key. -/
theorem c3_secondary_sort_witness :
    (twoLevelSort [rNginx, rApache, rTitled] [rApache, rNginx, rTitled] ∧
     ∃ r ∈ [rNginx, rApache, rTitled], r.PageTitle ≠ "") ∧
    ([rApache, rNginx, rTitled].takeWhile (fun r => decide (r.PageTitle = ""))).Pairwise
      (fun a b => serverLess b a = false) := by
  have hrel : twoLevelSort [rNginx, rApache, rTitled] [rApache, rNginx, rTitled] :=
    ⟨[rNginx, rApache, rTitled], [rApache, rNginx], by decide, by decide, by decide⟩
  exact ⟨⟨hrel, by decide⟩,
    c3_secondary_sort [rNginx, rApache, rTitled] [rApache, rNginx, rTitled] hrel (by decide)⟩

/-- Claim C4 counterexample: the two records `rXa` and `rXb` carry
identical comparison keys at both levels (equal titles "x", outside the
untitled block), `rXa` precedes `rXb` in the input, yet the exhibited
outcome — which is both permitted by the `sort.Slice` contract and the
output Go's pre-1.19 `sort.Slice` (gap-6 shell pass, then insertion
sort) actually computes on this 7-element input — reverses them: the
sort is not stable. -/
theorem c4_counterexample :
    twoLevelSort c4Input c4Output ∧
    titleLess rXa rXb = false ∧
    titleLess rXb rXa = false ∧
    c4Input.indexOf rXa < c4Input.indexOf rXb ∧
    c4Output.indexOf rXb < c4Output.indexOf rXa := by
  refine ⟨⟨c4Output, [], ?_, ?_, ?_⟩, ?_, ?_, ?_, ?_⟩ <;> decide

/-- Claim C4 as amended: the sort phase guarantees only that its
outcome is a permutation of the kept list that is nondecreasing in
case-folded page title; the relative input order of records with equal
keys is not guaranteed (Go's `sort.Slice` is documented as unstable and
does reorder equal-key records). -/
theorem c4_sort_guarantees (input output : List HTTResponse)
    (h : twoLevelSort input output) :
    output.Perm input ∧ output.Pairwise (fun a b => titleLess b a = false) := by
  obtain ⟨mid, pre, ⟨hpm, hps⟩, ⟨hqm, hqs⟩, hout⟩ := h
  have hpre : ∀ x ∈ pre, x.PageTitle = "" := fun x hx =>
    take_boundary_untitled mid x (hqm.subset hx)
  constructor
  · rw [hout]
    have h1 := hqm.append_right (mid.drop (boundaryIndex mid))
    rw [List.take_append_drop] at h1
    exact h1.trans hpm
  · rw [hout, List.pairwise_append]
    refine ⟨pairwise_titleLess_of_untitled pre hpre,
            hps.sublist (List.drop_sublist _ _), ?_⟩
    intro a ha b _
    exact untitled_titleLess_false b a (hpre a ha)

/-- Claim C4 witness: the guarantees instantiated on the concrete
7-record run of the counterexample input. -/
theorem c4_sort_guarantees_witness :
    twoLevelSort c4Input c4Output ∧
    (c4Output.Perm c4Input ∧ c4Output.Pairwise (fun a b => titleLess b a = false)) := by
  have hrel : twoLevelSort c4Input c4Output :=
    ⟨c4Output, [], by decide, by decide, by decide⟩
  exact ⟨hrel, c4_sort_guarantees c4Input c4Output hrel⟩

/-- Claim C10: when every kept record is untitled, the boundary-scan
variable stays 0, the secondary sort is applied to the empty slice, and
the sort phase is exactly its primary level: its permitted outcomes are
precisely the primary-contract outcomes, untouched by any secondary
reordering, and the scan over the output also yields 0. -/
theorem c10_all_untitled (input output : List HTTResponse)
    (h : ∀ r ∈ input, r.PageTitle = "") :
    (twoLevelSort input output ↔ sortSliceSpec titleLess input output) ∧
    (twoLevelSort input output → boundaryIndex output = 0) := by
  have hfwd : twoLevelSort input output → sortSliceSpec titleLess input output := by
    rintro ⟨mid, pre, ⟨hpm, hps⟩, ⟨hqm, hqs⟩, hout⟩
    have hmu : ∀ r ∈ mid, r.PageTitle = "" := fun r hr => h r (hpm.subset hr)
    have hb : boundaryIndex mid = 0 := boundaryIndex_all_untitled mid hmu
    rw [hb] at hqm hout
    simp only [List.take_zero, List.drop_zero] at hqm hout
    have hpre : pre = [] := hqm.eq_nil
    rw [hout, hpre, List.nil_append]
    exact ⟨hpm, hps⟩
  refine ⟨⟨hfwd, ?_⟩, fun ht => ?_⟩
  · intro hs
    have hou : ∀ r ∈ output, r.PageTitle = "" := fun r hr => h r (hs.1.subset hr)
    have hb : boundaryIndex output = 0 := boundaryIndex_all_untitled output hou
    refine ⟨output, [], hs, ?_, ?_⟩
    · rw [hb, List.take_zero]
      exact ⟨List.Perm.refl _, List.Pairwise.nil⟩
    · rw [hb, List.drop_zero, List.nil_append]
  · have hs := hfwd ht
    exact boundaryIndex_all_untitled output (fun r hr => h r (hs.1.subset hr))

/-- Claim C10 witness: the equivalence instantiated on a concrete
all-untitled kept list. -/
theorem c10_all_untitled_witness :
    (∀ r ∈ [rNginx, rApache], r.PageTitle = "") ∧
    ((twoLevelSort [rNginx, rApache] [rApache, rNginx] ↔
        sortSliceSpec titleLess [rNginx, rApache] [rApache, rNginx]) ∧
     (twoLevelSort [rNginx, rApache] [rApache, rNginx] →
        boundaryIndex [rApache, rNginx] = 0)) :=
  ⟨by decide, c10_all_untitled [rNginx, rApache] [rApache, rNginx] (by decide)⟩

/-! ### Pagination lemmas -/

theorem pageSlices_nil (P : Nat) : pageSlices P [] = [] := by
  unfold pageSlices
  simp

theorem pageSlices_zeroP (xs : List HTTResponse) : pageSlices 0 xs = [] := by
  unfold pageSlices
  simp

theorem pageSlices_cons {P : Nat} (hP : P ≠ 0) {xs : List HTTResponse} (hxs : xs ≠ []) :
    pageSlices P xs = xs.take P :: pageSlices P (xs.drop P) := by
  conv_lhs => rw [pageSlices]
  rw [dif_neg hP, dif_neg hxs]

/-- One step of the ceiling-division recurrence followed by the loops. -/
theorem ceil_div_step {P n : Nat} (hP : P ≠ 0) (hn : n ≠ 0) :
    (n + P - 1) / P = (n - P + P - 1) / P + 1 := by
  have e : n + P - 1 = (n - 1) + P := by omega
  rw [e, Nat.add_div_right _ (Nat.pos_of_ne_zero hP)]
  rcases le_or_lt P n with h | h
  · have e2 : n - P + P - 1 = n - 1 := by omega
    rw [e2]
  · have e2 : n - P + P - 1 = P - 1 := by omega
    rw [e2, Nat.div_eq_of_lt (by omega), Nat.div_eq_of_lt (by omega)]

theorem pageSlices_length (P : Nat) (hP : P ≠ 0) :
    ∀ (n : Nat) (xs : List HTTResponse), xs.length ≤ n →
      (pageSlices P xs).length = (xs.length + P - 1) / P := by
  intro n
  induction n with
  | zero =>
    intro xs hlen
    have hxs : xs = [] := List.eq_nil_of_length_eq_zero (Nat.le_zero.mp hlen)
    subst hxs
    rw [pageSlices_nil]
    simp only [List.length_nil]
    exact (Nat.div_eq_of_lt (by omega)).symm
  | succ n ih =>
    intro xs hlen
    by_cases hxs : xs = []
    · subst hxs
      rw [pageSlices_nil]
      simp only [List.length_nil]
      exact (Nat.div_eq_of_lt (by omega)).symm
    · rw [pageSlices_cons hP hxs, List.length_cons,
          ih (xs.drop P) (by rw [List.length_drop]; omega)]
      have hn : xs.length ≠ 0 := fun h0 => hxs (List.eq_nil_of_length_eq_zero h0)
      rw [List.length_drop]
      exact (ceil_div_step hP hn).symm

theorem pageCountLoop_zero (P : Nat) : pageCountLoop P 0 = 0 := by
  unfold pageCountLoop
  simp

theorem pageCountLoop_succ (P n : Nat) (hP : P ≠ 0) (hn : n ≠ 0) :
    pageCountLoop P n = pageCountLoop P (n - P) + 1 := by
  conv_lhs => rw [pageCountLoop]
  rw [dif_neg hP, dif_neg hn]

theorem pageCountLoop_eq (P : Nat) (hP : P ≠ 0) :
    ∀ (m n : Nat), n ≤ m → pageCountLoop P n = (n + P - 1) / P := by
  intro m
  induction m with
  | zero =>
    intro n hn
    have h0 : n = 0 := Nat.le_zero.mp hn
    subst h0
    rw [pageCountLoop_zero]
    exact (Nat.div_eq_of_lt (by omega)).symm
  | succ m ih =>
    intro n hn
    by_cases hn0 : n = 0
    · subst hn0
      rw [pageCountLoop_zero]
      exact (Nat.div_eq_of_lt (by omega)).symm
    · rw [pageCountLoop_succ P n hP hn0, ih (n - P) (by omega)]
      exact (ceil_div_step hP hn0).symm

theorem pageSlices_join (P : Nat) (hP : P ≠ 0) :
    ∀ (n : Nat) (xs : List HTTResponse), xs.length ≤ n → (pageSlices P xs).flatten = xs := by
  intro n
  induction n with
  | zero =>
    intro xs hlen
    have hxs : xs = [] := List.eq_nil_of_length_eq_zero (Nat.le_zero.mp hlen)
    subst hxs
    rw [pageSlices_nil]
    rfl
  | succ n ih =>
    intro xs hlen
    by_cases hxs : xs = []
    · subst hxs
      rw [pageSlices_nil]
      rfl
    · rw [pageSlices_cons hP hxs]
      simp only [List.flatten_cons]
      rw [ih (xs.drop P) (by rw [List.length_drop]; omega)]
      exact List.take_append_drop P xs

theorem pageSlices_getD (P : Nat) (hP : P ≠ 0) :
    ∀ (n : Nat) (xs : List HTTResponse), xs.length ≤ n → ∀ p,
      (pageSlices P xs).getD p [] = (xs.drop (p * P)).take P := by
  intro n
  induction n with
  | zero =>
    intro xs hlen p
    have hxs : xs = [] := List.eq_nil_of_length_eq_zero (Nat.le_zero.mp hlen)
    subst hxs
    rw [pageSlices_nil]
    simp
  | succ n ih =>
    intro xs hlen p
    by_cases hxs : xs = []
    · subst hxs
      rw [pageSlices_nil]
      simp
    · rw [pageSlices_cons hP hxs]
      cases p with
      | zero => simp
      | succ p =>
        simp only [List.getD_cons_succ]
        rw [ih (xs.drop P) (by rw [List.length_drop]; omega) p]
        have e : p.succ * P = P + p * P := by
          rw [Nat.succ_mul, Nat.add_comm]
        rw [List.drop_drop, e]

/-- The loop slice at page `p` is the claim's
`kept[p*P : min(N, (p+1)*P)]` slice. -/
theorem pageSlices_slice (P : Nat) (hP : P ≠ 0) (xs : List HTTResponse) (p : Nat) :
    (pageSlices P xs).getD p [] =
      (xs.take (min xs.length ((p + 1) * P))).drop (p * P) := by
  rw [pageSlices_getD P hP xs.length xs le_rfl p]
  rw [List.drop_take]
  rw [List.take_eq_take]
  rw [List.length_drop]
  have e : (p + 1) * P = p * P + P := Nat.succ_mul p P
  rw [e]
  generalize p * P = a
  omega

/-- The projection `displayProject` applied before slicing commutes
with slicing: the pagination cut is insensitive to the in-place
projection of lines 133–144. -/
theorem pageSlices_map (P : Nat) :
    ∀ (n : Nat) (xs : List HTTResponse), xs.length ≤ n →
      pageSlices P (xs.map displayProject) = (pageSlices P xs).map (List.map displayProject) := by
  by_cases hP : P = 0
  · intro n xs _
    subst hP
    rw [pageSlices_zeroP, pageSlices_zeroP]
    rfl
  · intro n
    induction n with
    | zero =>
      intro xs hlen
      have hxs : xs = [] := List.eq_nil_of_length_eq_zero (Nat.le_zero.mp hlen)
      subst hxs
      rw [List.map_nil, pageSlices_nil]
      rfl
    | succ n ih =>
      intro xs hlen
      by_cases hxs : xs = []
      · subst hxs
        rw [List.map_nil, pageSlices_nil]
        rfl
      · have hmx : xs.map displayProject ≠ [] := by
          simpa [List.map_eq_nil_iff] using hxs
        rw [pageSlices_cons hP hxs, pageSlices_cons hP hmx, List.map_cons]
        congr 1
        · rw [List.map_take]
        · rw [← ih (xs.drop P) (by rw [List.length_drop]; omega), List.map_drop]

/-- Claim C1: for a kept list of length `N` and page size `P > 0`, the
page loops produce `ceil(N/P)` pages (`pageCountLoop` is the counting
loop of lines 123–129), page `p`'s slice is
`kept[p*P : min(N, (p+1)*P)]`, and the pages concatenated in page order
reproduce the list exactly, with no duplicate or omission. -/
theorem c1_pagination (xs : List HTTResponse) (P : Nat) (hP : 0 < P) :
    (pageSlices P xs).length = (xs.length + P - 1) / P ∧
    pageCountLoop P xs.length = (pageSlices P xs).length ∧
    (∀ p, (pageSlices P xs).getD p [] =
        (xs.take (min xs.length ((p + 1) * P))).drop (p * P)) ∧
    (pageSlices P xs).flatten = xs := by
  have hP2 : P ≠ 0 := by omega
  refine ⟨pageSlices_length P hP2 xs.length xs le_rfl, ?_,
          fun p => pageSlices_slice P hP2 xs p,
          pageSlices_join P hP2 xs.length xs le_rfl⟩
  rw [pageCountLoop_eq P hP2 xs.length xs.length le_rfl,
      pageSlices_length P hP2 xs.length xs le_rfl]

/-- Claim C1 witness: five records at page size two give three pages
which concatenate back to the list. -/
theorem c1_pagination_witness :
    (0 : Nat) < 2 ∧
    ((pageSlices 2 [rZ, rXa, rM1, rM2, rM3]).length =
        ([rZ, rXa, rM1, rM2, rM3].length + 2 - 1) / 2 ∧
     pageCountLoop 2 [rZ, rXa, rM1, rM2, rM3].length =
        (pageSlices 2 [rZ, rXa, rM1, rM2, rM3]).length ∧
     (∀ p, (pageSlices 2 [rZ, rXa, rM1, rM2, rM3]).getD p [] =
        ([rZ, rXa, rM1, rM2, rM3].take
          (min [rZ, rXa, rM1, rM2, rM3].length ((p + 1) * 2))).drop (p * 2)) ∧
     (pageSlices 2 [rZ, rXa, rM1, rM2, rM3]).flatten = [rZ, rXa, rM1, rM2, rM3]) :=
  ⟨by decide, c1_pagination [rZ, rXa, rM1, rM2, rM3] 2 (by decide)⟩

/-- Claim C8: the display projection leaves every field except
`ScreenshotFile` and `Headers` unchanged, rewrites the screenshot path
to its base name unless it is the placeholder (left untouched), keeps
exactly the case-insensitive "server" headers in their relative order,
and commutes with the pagination cut (so the page boundaries fixed by
the earlier loops are unaffected); in `generateRun` the filter and the
two-level sort are applied to the unprojected records and the
projection only afterwards. -/
theorem c8_display_projection (r : HTTResponse) (P : Nat) (xs : List HTTResponse) :
    (displayProject r).URL = r.URL ∧
    (displayProject r).FinalURL = r.FinalURL ∧
    (displayProject r).ResponseCode = r.ResponseCode ∧
    (displayProject r).PageTitle = r.PageTitle ∧
    (displayProject r).ScreenshotFile =
      (if r.ScreenshotFile = placeHolderImage then placeHolderImage
       else filepathBase r.ScreenshotFile) ∧
    (displayProject r).Headers = r.Headers.filter (fun h => goToLower h.Key = ("server")) ∧
    pageSlices P (xs.map displayProject) = (pageSlices P xs).map (List.map displayProject) := by
  refine ⟨rfl, rfl, rfl, rfl, ?_, rfl, pageSlices_map P xs.length xs le_rfl⟩
  by_cases h : r.ScreenshotFile = placeHolderImage
  · simp [displayProject, h]
  · simp [displayProject, h]

/-- Claim C7 as amended: when the kept set is empty the run stops
before rendering, writes no page file, and emits an error-level report
— but the `count` field of that report is the length of the (empty)
kept list, i.e. always 0, not the number of ignored candidates. -/
theorem c7_empty_run (records : List HTTResponse) (P : Nat) (out : RunOutcome)
    (hempty : (filterRecords false records).1 = [])
    (hrun : generateRun false P records out) :
    out.files = [] ∧ out.errorLogCount = some 0 := by
  obtain ⟨sorted, hsort, hout⟩ := hrun
  rw [hempty] at hsort
  have hs : sorted = [] := twoLevelSort_nil sorted hsort
  subst hs
  rw [hout]
  exact ⟨rfl, rfl⟩

/-- Claim C7 counterexample: three records, all 404, with
`includeErrors = false`: three candidates are counted as ignored, yet
the (unique) outcome of the run reports `count = 0` in its error-level
log — not 3 as the claim states — and writes no files. -/
theorem c7_counterexample :
    (filterRecords false c7Input).2 = 3 ∧
    generateRun false 40 c7Input { files := [], errorLogCount := some 0 } ∧
    ({ files := [], errorLogCount := some 0 } : RunOutcome) ≠
      { files := [], errorLogCount := some 3 } := by
  refine ⟨by decide,
    ⟨[], ⟨[], [], ⟨by decide, by decide⟩, ⟨by decide, by decide⟩, by decide⟩, by decide⟩,
    by decide⟩

/-- Claim C7 witness: the amended statement instantiated on the
three-404 input. -/
theorem c7_empty_run_witness :
    ((filterRecords false c7Input).1 = [] ∧
     generateRun false 40 c7Input { files := [], errorLogCount := some 0 }) ∧
    (({ files := [], errorLogCount := some 0 } : RunOutcome).files = [] ∧
     ({ files := [], errorLogCount := some 0 } : RunOutcome).errorLogCount = some 0) := by
  have hrun : generateRun false 40 c7Input { files := [], errorLogCount := some 0 } :=
    ⟨[], ⟨[], [], ⟨by decide, by decide⟩, ⟨by decide, by decide⟩, by decide⟩, by decide⟩
  exact ⟨⟨by decide, hrun⟩, c7_empty_run c7Input 40 _ (by decide) hrun⟩

/-- The render environment in which writing page 1 fails. -/
def env9 : RenderEnv := { execOk := fun _ => true, writeOk := fun q => decide (q ≠ 1) }

/-- Three one-record pages. -/
def slices9 : List (List HTTResponse) := [[rShot], [rShot], [rShot]]

/-- Claim C9 (code bug): with page 1's file write failing, the render
loop still names every page file after its page number and neither
skips nor renumbers the other pages — but it reports nothing: the error
results of `Execute` and `WriteFile` are discarded and the loop body
contains no error channel, so the failed page is dropped silently,
contradicting the claim's "surfaced as a reported per-page error". -/
theorem c9_write_error_unreported :
    (renderLoop env9 0 slices9).1 =
      [{ file := ("page-0.html"), execOk := true, writeOk := true },
       { file := ("page-1.html"), execOk := true, writeOk := false },
       { file := ("page-2.html"), execOk := true, writeOk := true }] ∧
    (renderLoop env9 0 slices9).2 = [] := by
  constructor
  · rfl
  · rfl
